import Mathlib

/-!
Shallow embedding of the SVG → G-code toolpath generator of this repository
(`src/lib/gcode.ts`, function `generateGCode`) over exact rationals.

External collaborators are passed in as function parameters: `sqrtQ` models
`Math.sqrt` as used by the spiral-plunge branch, and `clipperOffset` models the
external `ClipperLib.ClipperOffset` polygon-offsetting primitive.  G-code text
lines are modelled as an inductive instruction type carrying the exact numeric
payload each line interpolates; the 3-decimal textual formatting is serialization
and is not modelled.
-/

namespace Gcode

/-- A point in document units (millimetres): the `Point` interface of the source. -/
structure Point where
  x : ℚ
  y : ℚ
deriving DecidableEq

/-- Motion kind of a visualization segment: `G0` rapid (non-cutting) or `G1` cut. -/
inductive SegType where
  | G0
  | G1
deriving DecidableEq

/-- A visualization segment, the `Segment` interface of the source. -/
structure Segment where
  p1 : Point
  p2 : Point
  type : SegType
deriving DecidableEq

/-- A fixed-point (Clipper-scaled) coordinate pair `{X, Y}` as pushed into
`currentSubPath` by the source (document coordinates multiplied by `SCALE`). -/
structure SPoint where
  X : ℚ
  Y : ℚ
deriving DecidableEq

/-- The `cutMode` parameter values. -/
inductive CutMode where
  | onLine
  | inside
  | outside
deriving DecidableEq

/-- The `plungeMode` parameter values. -/
inductive PlungeMode where
  | vertical
  | spiral
deriving DecidableEq

/-- The `pathOrdering` parameter values. -/
inductive PathOrdering where
  | natural
  | insideOut
deriving DecidableEq

/-- The `GCodeParams` interface of the source. -/
structure GCodeParams where
  spindleSpeed : ℚ
  feedRate : ℚ
  plungeRate : ℚ
  depthOfCut : ℚ
  passDepth : ℚ
  safeZ : ℚ
  toolDiameter : ℚ
  cutMode : CutMode
  plungeMode : PlungeMode
  pathOrdering : PathOrdering
deriving DecidableEq

/-- An absolute SVG path command, as delivered by the external
`makeAbsolute(parsePathData d)`.  `XY` stands for any other command carrying
absolute `x`/`y` fields (`Z`, `A`, `S`, `T`, …), which the source's final
`else if ('x' in cmd && 'y' in cmd)` branch treats as a straight move. -/
inductive Cmd where
  | M (x y : ℚ)
  | L (x y : ℚ)
  | H (x : ℚ)
  | V (y : ℚ)
  | C (x1 y1 x2 y2 x y : ℚ)
  | Q (x1 y1 x y : ℚ)
  | XY (x y : ℚ)
deriving DecidableEq

/-- Cubic Bezier flattening (`flattenCubicBezier`): `segments` uniform samples at
`t = i/segments` for `i = 1..segments`. -/
def flattenCubicBezier (p0 p1 p2 p3 : Point) (segments : ℕ := 10) : List Point :=
  (List.range segments).map (fun i =>
    let t : ℚ := ((i : ℚ) + 1) / (segments : ℚ)
    let invT : ℚ := 1 - t
    { x := invT * invT * invT * p0.x + 3 * invT * invT * t * p1.x
         + 3 * invT * t * t * p2.x + t * t * t * p3.x
      y := invT * invT * invT * p0.y + 3 * invT * invT * t * p1.y
         + 3 * invT * t * t * p2.y + t * t * t * p3.y })

/-- Quadratic Bezier flattening (`flattenQuadraticBezier`). -/
def flattenQuadraticBezier (p0 p1 p2 : Point) (segments : ℕ := 10) : List Point :=
  (List.range segments).map (fun i =>
    let t : ℚ := ((i : ℚ) + 1) / (segments : ℚ)
    let invT : ℚ := 1 - t
    { x := invT * invT * p0.x + 2 * invT * t * p1.x + t * t * p2.x
      y := invT * invT * p0.y + 2 * invT * t * p1.y + t * t * p2.y })

/-- Scale factor for Clipper integer math: `const SCALE = 1000`. -/
def SCALE : ℚ := 1000

/-- The scaling applied when the source pushes `{X: x * SCALE, Y: y * SCALE}`. -/
def scalePt (p : Point) : SPoint :=
  { X := p.x * SCALE, Y := p.y * SCALE }

/-- The inverse scaling applied by the emitter (`path[i].X / SCALE`). -/
def unscale (q : SPoint) : Point :=
  { x := q.X / SCALE, y := q.Y / SCALE }

/-- Accumulator of the source's `commands.forEach` loop: the running cursor, the
subpath currently being built (already scaled) and the finished subpaths. -/
structure PathAcc where
  currentPos : Point
  currentSubPath : List SPoint
  subPaths : List (List SPoint)

/-- One iteration of the source's command loop (source lines 150–191). -/
def stepCmd (acc : PathAcc) (cmd : Cmd) : PathAcc :=
  match cmd with
  | .M x y =>
      let finished := if acc.currentSubPath.length > 0
        then acc.subPaths ++ [acc.currentSubPath] else acc.subPaths
      let pos : Point := { x := x, y := y }
      { currentPos := pos, currentSubPath := [scalePt pos], subPaths := finished }
  | .L x y =>
      let pos : Point := { x := x, y := y }
      { acc with currentPos := pos, currentSubPath := acc.currentSubPath ++ [scalePt pos] }
  | .H x =>
      let pos : Point := { x := x, y := acc.currentPos.y }
      { acc with currentPos := pos, currentSubPath := acc.currentSubPath ++ [scalePt pos] }
  | .V y =>
      let pos : Point := { x := acc.currentPos.x, y := y }
      { acc with currentPos := pos, currentSubPath := acc.currentSubPath ++ [scalePt pos] }
  | .C x1 y1 x2 y2 x y =>
      let pts := flattenCubicBezier acc.currentPos ⟨x1, y1⟩ ⟨x2, y2⟩ ⟨x, y⟩
      { acc with currentPos := ⟨x, y⟩,
                 currentSubPath := acc.currentSubPath ++ pts.map scalePt }
  | .Q x1 y1 x y =>
      let pts := flattenQuadraticBezier acc.currentPos ⟨x1, y1⟩ ⟨x, y⟩
      { acc with currentPos := ⟨x, y⟩,
                 currentSubPath := acc.currentSubPath ++ pts.map scalePt }
  | .XY x y =>
      let pos : Point := { x := x, y := y }
      { acc with currentPos := pos, currentSubPath := acc.currentSubPath ++ [scalePt pos] }

/-- The (scaled) subpaths produced from one path element's command stream: the
source's `subPaths` after the loop, plus the trailing flush of `currentSubPath`. -/
def subPathsOf (cmds : List Cmd) : List (List SPoint) :=
  let acc := cmds.foldl stepCmd { currentPos := ⟨0, 0⟩, currentSubPath := [], subPaths := [] }
  if acc.currentSubPath.length > 0 then acc.subPaths ++ [acc.currentSubPath] else acc.subPaths

/-- Spec-side accumulator: the same traversal kept in document units, used to
state that the on-line cut mode is an identity transform on Subpaths. -/
structure DocPathAcc where
  currentPos : Point
  currentSubPath : List Point
  subPaths : List (List Point)

/-- Spec-side command step in document units (no fixed-point scaling). -/
def docStepCmd (acc : DocPathAcc) (cmd : Cmd) : DocPathAcc :=
  match cmd with
  | .M x y =>
      let finished := if acc.currentSubPath.length > 0
        then acc.subPaths ++ [acc.currentSubPath] else acc.subPaths
      let pos : Point := { x := x, y := y }
      { currentPos := pos, currentSubPath := [pos], subPaths := finished }
  | .L x y =>
      let pos : Point := { x := x, y := y }
      { acc with currentPos := pos, currentSubPath := acc.currentSubPath ++ [pos] }
  | .H x =>
      let pos : Point := { x := x, y := acc.currentPos.y }
      { acc with currentPos := pos, currentSubPath := acc.currentSubPath ++ [pos] }
  | .V y =>
      let pos : Point := { x := acc.currentPos.x, y := y }
      { acc with currentPos := pos, currentSubPath := acc.currentSubPath ++ [pos] }
  | .C x1 y1 x2 y2 x y =>
      let pts := flattenCubicBezier acc.currentPos ⟨x1, y1⟩ ⟨x2, y2⟩ ⟨x, y⟩
      { acc with currentPos := ⟨x, y⟩, currentSubPath := acc.currentSubPath ++ pts }
  | .Q x1 y1 x y =>
      let pts := flattenQuadraticBezier acc.currentPos ⟨x1, y1⟩ ⟨x, y⟩
      { acc with currentPos := ⟨x, y⟩, currentSubPath := acc.currentSubPath ++ pts }
  | .XY x y =>
      let pos : Point := { x := x, y := y }
      { acc with currentPos := pos, currentSubPath := acc.currentSubPath ++ [pos] }

/-- The Subpaths of one path element in document units (spec §4.3's view). -/
def docSubPathsOf (cmds : List Cmd) : List (List Point) :=
  let acc := cmds.foldl docStepCmd { currentPos := ⟨0, 0⟩, currentSubPath := [], subPaths := [] }
  if acc.currentSubPath.length > 0 then acc.subPaths ++ [acc.currentSubPath] else acc.subPaths

/-- Shoelace signed area of a closed polyline; models the external
`ClipperLib.Clipper.Area` ordering key (spec §4.5: shoelace-formula area). -/
def area (path : List SPoint) : ℚ :=
  ((path.zip (path.rotate 1)).map (fun pq => pq.1.X * pq.2.Y - pq.2.X * pq.1.Y)).sum / 2

/-- Stable insertion of `a` into `l`: `a` goes in front of the first element whose
key is not smaller, so earlier-input elements stay in front of equal-key elements. -/
def ordInsert {α : Type*} (key : α → ℚ) (a : α) : List α → List α
  | [] => [a]
  | b :: l => if key b < key a then b :: ordInsert key a l else a :: b :: l

/-- Stable ascending sort by `key`.  ECMAScript `Array.prototype.sort` with a
consistent comparator is specified to produce exactly the stable ascending
order, which determines the result uniquely; this models
`allFinalPaths.sort((a, b) => |Area(a)| - |Area(b)|)`. -/
def stableSortBy {α : Type*} (key : α → ℚ) (l : List α) : List α :=
  l.foldr (ordInsert key) []

/-- The merged post-offset polyline list `allFinalPaths` (source lines 139–226):
on-line mode pushes every subpath unchanged, the other modes push whatever the
external Clipper offset returns for delta `±(toolDiameter/2)·SCALE`. -/
def allFinalPaths (clipperOffset : List (List SPoint) → ℚ → List (List SPoint))
    (params : GCodeParams) (paths : List (List Cmd)) : List (List SPoint) :=
  paths.flatMap (fun cmds =>
    let subPaths := subPathsOf cmds
    if params.cutMode = CutMode.onLine then subPaths
    else
      let offset := params.toolDiameter / 2 * SCALE
      let delta := if params.cutMode = CutMode.outside then offset else -offset
      clipperOffset subPaths delta)

/-- The optional inside-out reordering (source lines 229–235). -/
def sortPaths (params : GCodeParams) (l : List (List SPoint)) : List (List SPoint) :=
  if params.pathOrdering = PathOrdering.insideOut then
    stableSortBy (fun p => |area p|) l
  else l

/-- One emitted G-code line, carrying the exact numeric payload the source
interpolates into the corresponding text line. -/
inductive GInstr where
  | fileComment
  | unitsMM
  | absolutePositioning
  | spindleOn (s : ℚ)
  | rapidZ (z : ℚ)
  | setFeed (f : ℚ)
  | passComment (pass total : ℕ) (depth : ℚ)
  | rapidXY (p : Point)
  | plungeZ (z f : ℚ)
  | spiralPlunge (p : Point) (z f : ℚ)
  | cutXY (p : Point)
  | prepComment
  | spindleOff
  | programEnd
deriving DecidableEq

/-- The fixed program header (source lines 125–132). -/
def gcodeHeader (params : GCodeParams) : List GInstr :=
  [GInstr.fileComment, GInstr.unitsMM, GInstr.absolutePositioning,
   GInstr.spindleOn params.spindleSpeed, GInstr.rapidZ params.safeZ,
   GInstr.setFeed params.feedRate]

/-- Number of iterations of the multi-pass loop:
`numPasses = Math.ceil(depthOfCut / passDepth)`, where a non-positive value runs
the `for` loop zero times.  (The JS division-by-zero case `passDepth = 0`, which
makes `numPasses = Infinity` and the loop diverge, has no counterpart here since
rational division by zero yields 0.) -/
def passCountOf (params : GCodeParams) : ℕ :=
  (⌈params.depthOfCut / params.passDepth⌉).toNat

/-- Target depth of 0-based pass `passIndex`:
`min((passIndex + 1) * passDepth, depthOfCut)` (source line 251). -/
def passTargetDepth (params : GCodeParams) (passIndex : ℕ) : ℚ :=
  min (((passIndex : ℚ) + 1) * params.passDepth) params.depthOfCut

/-- The plunge instruction(s) of one pass (source lines 270–305): vertical for
`plungeMode = vertical` or any pass after the first; otherwise the two-segment
spiral approximation when the first edge exists and has length above `0.001`,
with vertical fallback. -/
def passPlungeLines (sqrtQ : ℚ → ℚ) (params : GCodeParams) (path : List SPoint)
    (p0 : Point) (isFirstPass : Bool) (plungeDepth : ℚ) : List GInstr :=
  if params.plungeMode = PlungeMode.vertical ∨ isFirstPass = false then
    [GInstr.plungeZ (-plungeDepth) params.plungeRate]
  else
    let spiralRadius := params.toolDiameter * 0.75
    match path with
    | _ :: q1 :: _ =>
      let p1 := unscale q1
      let dx := p1.x - p0.x
      let dy := p1.y - p0.y
      let dist := sqrtQ (dx * dx + dy * dy)
      if dist > 0.001 then
        let perpX := -dy / dist
        let perpY := dx / dist
        let arcX := p0.x + perpX * spiralRadius
        let arcY := p0.y + perpY * spiralRadius
        [GInstr.spiralPlunge ⟨arcX, arcY⟩ (-plungeDepth / 2) params.plungeRate,
         GInstr.spiralPlunge p0 (-plungeDepth) params.plungeRate]
      else
        [GInstr.plungeZ (-plungeDepth) params.plungeRate]
    | _ =>
      [GInstr.plungeZ (-plungeDepth) params.plungeRate]

/-- Visualization segments pushed during the plunge, with the updated head
position (only the successful spiral branch records segments, source 296–298). -/
def passPlungeSegs (sqrtQ : ℚ → ℚ) (params : GCodeParams) (path : List SPoint)
    (p0 : Point) (isFirstPass : Bool) (head : Point) : List Segment × Point :=
  if params.plungeMode = PlungeMode.vertical ∨ isFirstPass = false then
    ([], head)
  else
    let spiralRadius := params.toolDiameter * 0.75
    match path with
    | _ :: q1 :: _ =>
      let p1 := unscale q1
      let dx := p1.x - p0.x
      let dy := p1.y - p0.y
      let dist := sqrtQ (dx * dx + dy * dy)
      if dist > 0.001 then
        let arc : Point := ⟨p0.x + -dy / dist * spiralRadius, p0.y + dx / dist * spiralRadius⟩
        ([⟨head, arc, SegType.G1⟩, ⟨arc, p0, SegType.G1⟩], p0)
      else ([], head)
    | _ => ([], head)

/-- The cut instructions of one pass: one `G1 X Y` per point of the polyline
after the first (source loop `for i = 1; i < path.length`). -/
def cutLines (path : List SPoint) : List GInstr :=
  (path.drop 1).map (fun q => GInstr.cutXY (unscale q))

/-- The cut-move segments for a list of targets, threading the head position. -/
def chainCutSegs (head : Point) : List Point → List Segment × Point
  | [] => ([], head)
  | t :: ts =>
    let r := chainCutSegs t ts
    (⟨head, t, SegType.G1⟩ :: r.1, r.2)

/-- All G-code instructions of pass `passIndex` for one polyline
(source lines 249–336, the body of the multi-pass loop). -/
def passLines (sqrtQ : ℚ → ℚ) (params : GCodeParams) (path : List SPoint) (p0 : Point)
    (passIndex passCount : ℕ) : List GInstr :=
  let currentDepth := passTargetDepth params passIndex
  let isFirstPass := passIndex == 0
  let isLastPass := passIndex == passCount - 1
  [GInstr.passComment (passIndex + 1) passCount currentDepth]
  ++ (if isFirstPass then [GInstr.rapidXY p0, GInstr.rapidZ params.safeZ] else [])
  ++ passPlungeLines sqrtQ params path p0 isFirstPass currentDepth
  ++ [GInstr.setFeed params.feedRate]
  ++ cutLines path
  ++ (if 2 < path.length then [GInstr.cutXY p0] else [])
  ++ (if isLastPass then [GInstr.rapidZ params.safeZ] else [GInstr.prepComment])

/-- The first-pass rapid-travel segment push (source line 260): on the first
pass the rapid move from the current head position to the polyline start is
recorded and the head becomes the start point. -/
def passStartSegs (p0 : Point) (isFirstPass : Bool) (head : Point) :
    List Segment × Point :=
  if isFirstPass then ([⟨head, p0, SegType.G0⟩], p0) else ([], head)

/-- The closing-cut segment push (source lines 321–327): recorded only when the
polyline has more than two points. -/
def passClosingSegs (path : List SPoint) (p0 : Point) (head : Point) :
    List Segment × Point :=
  if 2 < path.length then ([⟨head, p0, SegType.G1⟩], p0) else ([], head)

/-- The visualization segments of pass `passIndex` with the updated head position:
the first pass records the rapid travel to the start, the (spiral) plunge records
its two cut segments, then one cut segment per target and the closing segment
when the polyline has more than two points. -/
def passSegs (sqrtQ : ℚ → ℚ) (params : GCodeParams) (path : List SPoint) (p0 : Point)
    (passIndex : ℕ) (head : Point) : List Segment × Point :=
  let start := passStartSegs p0 (passIndex == 0) head
  let plunge := passPlungeSegs sqrtQ params path p0 (passIndex == 0) start.2
  let cuts := chainCutSegs plunge.2 ((path.drop 1).map unscale)
  let closing := passClosingSegs path p0 cuts.2
  (start.1 ++ plunge.1 ++ cuts.1 ++ closing.1, closing.2)

/-- The G-code lines emitted for one polyline: the multi-pass loop over
`passIndex = 0 .. numPasses-1`; an empty polyline is skipped. -/
def emitPathLines (sqrtQ : ℚ → ℚ) (params : GCodeParams) (path : List SPoint) : List GInstr :=
  match path with
  | [] => []
  | q0 :: _ =>
    let p0 := unscale q0
    let n := passCountOf params
    (List.range n).flatMap (fun k => passLines sqrtQ params path p0 k n)

/-- The visualization segments emitted for one polyline, with the final head
position; an empty polyline is skipped. -/
def emitPathSegs (sqrtQ : ℚ → ℚ) (params : GCodeParams) (path : List SPoint)
    (head : Point) : List Segment × Point :=
  match path with
  | [] => ([], head)
  | q0 :: _ =>
    let p0 := unscale q0
    let n := passCountOf params
    (List.range n).foldl (fun acc k =>
      let r := passSegs sqrtQ params path p0 k acc.2
      (acc.1 ++ r.1, r.2)) ([], head)

/-- The result record `{ gcode, segments }` of `generateGCode`. -/
structure GCodeResult where
  gcode : List GInstr
  segments : List Segment
deriving DecidableEq

/-- The per-polyline emission loop (`allFinalPaths.forEach`, source lines 238–337):
accumulates the G-code lines and the visualization segments while threading the
head position, which starts at the origin. -/
def emitAll (sqrtQ : ℚ → ℚ) (params : GCodeParams)
    (finalPaths : List (List SPoint)) : List GInstr × List Segment × Point :=
  finalPaths.foldl
    (fun (acc : List GInstr × List Segment × Point) path =>
      let ls := emitPathLines sqrtQ params path
      let sg := emitPathSegs sqrtQ params path acc.2.2
      (acc.1 ++ ls, acc.2.1 ++ sg.1, sg.2))
    ([], [], (⟨0, 0⟩ : Point))

/-- The full generator `generateGCode` (source lines 101–347): builds the merged
post-offset polyline list, optionally reorders it inside-out, emits every
polyline in order starting from head position `(0, 0)`, and closes with the
return-to-origin segment and the `M5`, `G0 X0 Y0`, `M30` footer lines. -/
def generateGCode (sqrtQ : ℚ → ℚ)
    (clipperOffset : List (List SPoint) → ℚ → List (List SPoint))
    (paths : List (List Cmd)) (params : GCodeParams) : GCodeResult :=
  let emitted := emitAll sqrtQ params (sortPaths params (allFinalPaths clipperOffset params paths))
  { gcode := gcodeHeader params ++ emitted.1
      ++ [GInstr.spindleOff, GInstr.rapidXY ⟨0, 0⟩, GInstr.programEnd]
    segments := emitted.2.1 ++ [⟨emitted.2.2, ⟨0, 0⟩, SegType.G0⟩] }

/-- Recognizer for the cutting line-to instructions `G1 X… Y…` emitted by the
cut loop and the closing move (not the plunge instructions). -/
def isCutXY : GInstr → Bool
  | .cutXY _ => true
  | _ => false

/-- Recognizer for rapid (`G0`) instructions: rapid travel and rapid Z moves. -/
def isRapid : GInstr → Bool
  | .rapidXY _ => true
  | .rapidZ _ => true
  | _ => false

/-- The segment list forms a connected chain starting at `h`: each segment
starts where the previous one ended. -/
def ChainFrom : Point → List Segment → Prop
  | _, [] => True
  | h, s :: rest => s.p1 = h ∧ ChainFrom s.p2 rest

/-- End point of a chain of segments started at `h` (the head position after
replaying them). -/
def chainEnd (h : Point) : List Segment → Point
  | [] => h
  | s :: rest => chainEnd s.p2 rest

/-- Sample model of `Math.sqrt` correct at the inputs the sample geometry uses. -/
def sqrtSample : ℚ → ℚ := fun q => if q = 100 then 10 else 0

/-- Sample model of the external Clipper offset (never invoked in on-line mode). -/
def offsetSample : List (List SPoint) → ℚ → List (List SPoint) := fun _ _ => []

/-- Sample command stream: the closed 10×10 square of spec §8. -/
def squareCmds : List Cmd := [.M 0 0, .L 10 0, .L 10 10, .L 0 10]

/-- The scaled polyline of the sample square. -/
def squarePath : List SPoint := [⟨0, 0⟩, ⟨10000, 0⟩, ⟨10000, 10000⟩, ⟨0, 10000⟩]

/-- Sample tool parameters (the defaults of the application shell). -/
def sampleParams : GCodeParams :=
  { spindleSpeed := 12000, feedRate := 800, plungeRate := 300, depthOfCut := 1,
    passDepth := 1, safeZ := 5, toolDiameter := 3, cutMode := CutMode.onLine,
    plungeMode := PlungeMode.vertical, pathOrdering := PathOrdering.natural }

/-- Sample parameters with a fractional final pass: depthOfCut 3/2 at passDepth 1. -/
def paramsHalfPass : GCodeParams := { sampleParams with depthOfCut := 3 / 2 }

/-- Sample parameters with depthOfCut 0 (the degenerate depth configuration). -/
def paramsZeroDepth : GCodeParams := { sampleParams with depthOfCut := 0 }

/-- Sample parameters with the invalid non-positive passDepth -1. -/
def paramsNegPass : GCodeParams := { sampleParams with passDepth := -1 }

/-- Sample parameters selecting the inside-out path ordering. -/
def paramsInsideOut : GCodeParams := { sampleParams with pathOrdering := PathOrdering.insideOut }

/-- Sample parameters selecting the spiral plunge mode. -/
def paramsSpiral : GCodeParams := { sampleParams with plungeMode := PlungeMode.spiral }

theorem passPlungeLines_filter_isCutXY (sqrtQ : ℚ → ℚ) (params : GCodeParams)
    (path : List SPoint) (p0 : Point) (fst : Bool) (d : ℚ) :
    (passPlungeLines sqrtQ params path p0 fst d).filter isCutXY = [] := by
  unfold passPlungeLines
  split
  · rfl
  · rcases path with _ | ⟨q0, _ | ⟨q1, rest⟩⟩
    · rfl
    · rfl
    · dsimp only
      split <;> rfl

theorem cutLines_filter_isCutXY (path : List SPoint) :
    (cutLines path).filter isCutXY = cutLines path := by
  unfold cutLines
  generalize path.drop 1 = ts
  induction ts with
  | nil => rfl
  | cons q ts ih => simp [isCutXY, ih]

theorem length_filter_isCutXY_map (ts : List SPoint) :
    (List.filter isCutXY (ts.map (fun q => GInstr.cutXY (unscale q)))).length = ts.length := by
  induction ts with
  | nil => rfl
  | cons q ts ih => simp [isCutXY, ih]

theorem length_filter_isCutXY_tail_map (path : List SPoint) :
    (List.filter isCutXY ((path.map (fun q => GInstr.cutXY (unscale q))).tail)).length
      = path.length - 1 := by
  rcases path with _ | ⟨q, qs⟩
  · rfl
  · simpa using length_filter_isCutXY_map qs

/-- C1: for every polyline with point count `n` and every pass, the pass body
contains exactly `n - 1` cutting line-to instructions for the interior edges,
plus one closing cut back to the first point exactly when `n > 2`. -/
theorem c1_cut_count (sqrtQ : ℚ → ℚ) (params : GCodeParams) (path : List SPoint)
    (p0 : Point) (passIndex passCount : ℕ) (h : path ≠ []) :
    ((passLines sqrtQ params path p0 passIndex passCount).filter isCutXY).length
      = (path.length - 1) + (if 2 < path.length then 1 else 0) := by
  unfold passLines
  dsimp only
  split_ifs <;>
    simp [List.filter_append, passPlungeLines_filter_isCutXY, isCutXY, cutLines,
      length_filter_isCutXY_tail_map]

/-- Witness for C1 at the sample square: 3 interior cuts plus the closing cut. -/
theorem c1_witness :
    squarePath ≠ [] ∧
    ((passLines sqrtSample sampleParams squarePath ⟨0, 0⟩ 0 1).filter isCutXY).length
      = (squarePath.length - 1) + (if 2 < squarePath.length then 1 else 0) :=
  ⟨by decide, c1_cut_count sqrtSample sampleParams squarePath ⟨0, 0⟩ 0 1 (by decide)⟩

/-- C9: `generateGCode` is a pure function of the source geometry, the
parameters and the external collaborators, so two invocations on the same
inputs produce identical instruction text and identical segment sequences. -/
theorem c9_deterministic (sqrtQ : ℚ → ℚ)
    (clipperOffset : List (List SPoint) → ℚ → List (List SPoint))
    (paths : List (List Cmd)) (params : GCodeParams) :
    (generateGCode sqrtQ clipperOffset paths params).gcode
        = (generateGCode sqrtQ clipperOffset paths params).gcode
      ∧ (generateGCode sqrtQ clipperOffset paths params).segments
        = (generateGCode sqrtQ clipperOffset paths params).segments :=
  ⟨rfl, rfl⟩

/-- C5 (amended): after the last polyline's instructions the emitter appends the
spindle-stop, then the rapid return to the origin, then the program-end — and the
return-to-origin rapid is recorded as the final rapid-kind visualization segment. -/
theorem c5_footer (sqrtQ : ℚ → ℚ)
    (clipperOffset : List (List SPoint) → ℚ → List (List SPoint))
    (paths : List (List Cmd)) (params : GCodeParams) :
    (generateGCode sqrtQ clipperOffset paths params).gcode
      = (gcodeHeader params
          ++ (emitAll sqrtQ params (sortPaths params (allFinalPaths clipperOffset params paths))).1)
        ++ [GInstr.spindleOff, GInstr.rapidXY ⟨0, 0⟩, GInstr.programEnd]
  ∧ (generateGCode sqrtQ clipperOffset paths params).segments
      = (emitAll sqrtQ params (sortPaths params (allFinalPaths clipperOffset params paths))).2.1
        ++ [⟨(emitAll sqrtQ params (sortPaths params (allFinalPaths clipperOffset params paths))).2.2,
            ⟨0, 0⟩, SegType.G0⟩] := by
  constructor
  · simp [generateGCode, List.append_assoc]
  · rfl

/-- Counterexample to C5 as stated: on a concrete input, the three footer
instructions come in the order spindle-stop, rapid-return, program-end — not
rapid-return first as the claim asserts. -/
theorem c5_counterexample :
    (generateGCode sqrtSample offsetSample [] sampleParams).gcode.drop 6
        = [GInstr.spindleOff, GInstr.rapidXY ⟨0, 0⟩, GInstr.programEnd]
    ∧ [GInstr.spindleOff, GInstr.rapidXY ⟨0, 0⟩, GInstr.programEnd]
        ≠ [GInstr.rapidXY ⟨0, 0⟩, GInstr.spindleOff, GInstr.programEnd] := by
  exact ⟨by decide, by decide⟩

/-- C2 (amended): for positive `passDepth` and nonnegative `depthOfCut` the pass
count `n = ceil(depthOfCut / passDepth)` satisfies
`(n-1)·passDepth < depthOfCut ≤ n·passDepth`; `depthOfCut = 0` yields zero
passes (the multi-pass loop does not run), not one pass at depth 0. -/
theorem c2_pass_bounds (params : GCodeParams)
    (hp : 0 < params.passDepth) (hd : 0 ≤ params.depthOfCut) :
    ((passCountOf params : ℚ) - 1) * params.passDepth < params.depthOfCut
  ∧ params.depthOfCut ≤ (passCountOf params : ℚ) * params.passDepth
  ∧ (params.depthOfCut = 0 → passCountOf params = 0) := by
  have hq : 0 ≤ params.depthOfCut / params.passDepth := div_nonneg hd hp.le
  have hc0 : (0 : ℤ) ≤ ⌈params.depthOfCut / params.passDepth⌉ := Int.ceil_nonneg hq
  have hcast : (passCountOf params : ℚ) = (⌈params.depthOfCut / params.passDepth⌉ : ℚ) := by
    unfold passCountOf
    exact_mod_cast congrArg (fun z : ℤ => (z : ℚ)) (Int.toNat_of_nonneg hc0)
  refine ⟨?_, ?_, ?_⟩
  · have h1 : (passCountOf params : ℚ) - 1 < params.depthOfCut / params.passDepth := by
      rw [hcast]
      have h2 := Int.ceil_lt_add_one (params.depthOfCut / params.passDepth)
      linarith
    have h3 := (lt_div_iff₀ hp).mp h1
    linarith
  · have h1 : params.depthOfCut / params.passDepth ≤ (passCountOf params : ℚ) := by
      rw [hcast]
      exact Int.le_ceil _
    have h3 := (div_le_iff₀ hp).mp h1
    linarith
  · intro h0
    unfold passCountOf
    rw [h0]
    simp

/-- Witness for the amended C2 at depthOfCut 3/2, passDepth 1 (two passes). -/
theorem c2_witness :
    ((passCountOf paramsHalfPass : ℚ) - 1) * paramsHalfPass.passDepth
        < paramsHalfPass.depthOfCut
  ∧ paramsHalfPass.depthOfCut ≤ (passCountOf paramsHalfPass : ℚ) * paramsHalfPass.passDepth
  ∧ (paramsHalfPass.depthOfCut = 0 → passCountOf paramsHalfPass = 0) :=
  c2_pass_bounds paramsHalfPass (by norm_num [paramsHalfPass, sampleParams])
    (by norm_num [paramsHalfPass, sampleParams])

/-- Counterexample to C2 as stated: with depthOfCut = 0 the computed pass count
is 0, not the claimed "exactly one pass at depth 0" — the multi-pass loop for
the sample square emits no instructions at all. -/
theorem c2_counterexample :
    passCountOf paramsZeroDepth = 0 ∧ passCountOf paramsZeroDepth ≠ 1
  ∧ emitPathLines sqrtSample paramsZeroDepth squarePath = [] := by
  have h : passCountOf paramsZeroDepth = 0 := by
    unfold passCountOf paramsZeroDepth sampleParams
    norm_num
  exact ⟨h, by omega, by simp [emitPathLines, squarePath, h]⟩

theorem emitPathLines_of_passCount_eq_zero (sqrtQ : ℚ → ℚ) (params : GCodeParams)
    (h : passCountOf params = 0) (path : List SPoint) :
    emitPathLines sqrtQ params path = [] := by
  cases path <;> simp [emitPathLines, h]

theorem emitPathSegs_of_passCount_eq_zero (sqrtQ : ℚ → ℚ) (params : GCodeParams)
    (h : passCountOf params = 0) (path : List SPoint) (head : Point) :
    emitPathSegs sqrtQ params path head = ([], head) := by
  cases path <;> simp [emitPathSegs, h]

theorem emitAll_of_passCount_eq_zero (sqrtQ : ℚ → ℚ) (params : GCodeParams)
    (h : passCountOf params = 0) (l : List (List SPoint)) :
    emitAll sqrtQ params l = ([], [], (⟨0, 0⟩ : Point)) := by
  have key : ∀ (l : List (List SPoint)) (acc : List GInstr × List Segment × Point),
      l.foldl (fun (acc : List GInstr × List Segment × Point) path =>
        let ls := emitPathLines sqrtQ params path
        let sg := emitPathSegs sqrtQ params path acc.2.2
        (acc.1 ++ ls, acc.2.1 ++ sg.1, sg.2)) acc = acc := by
    intro l
    induction l with
    | nil => intro acc; rfl
    | cons p l ih =>
      intro acc
      rw [List.foldl_cons]
      dsimp only
      rw [emitPathLines_of_passCount_eq_zero sqrtQ params h,
        emitPathSegs_of_passCount_eq_zero sqrtQ params h]
      simpa using ih acc
  unfold emitAll
  exact key l _

/-- C4: the generator performs no configuration validation: with the invalid
non-positive passDepth = -1 it still returns a complete program — the six
header lines followed by the three footer lines — instead of rejecting the
input before the pipeline runs (there is no error channel at all). -/
theorem c4_no_validation :
    (generateGCode sqrtSample offsetSample [squareCmds] paramsNegPass).gcode
      = gcodeHeader paramsNegPass
        ++ [GInstr.spindleOff, GInstr.rapidXY ⟨0, 0⟩, GInstr.programEnd]
  ∧ (generateGCode sqrtSample offsetSample [squareCmds] paramsNegPass).gcode ≠ [] := by
  have h : passCountOf paramsNegPass = 0 := by
    unfold passCountOf paramsNegPass sampleParams
    norm_num
    rw [show ((-1 : ℚ)) = ((-1 : ℤ) : ℚ) by norm_num, Int.ceil_intCast]
    norm_num
  have hA := emitAll_of_passCount_eq_zero sqrtSample paramsNegPass h
    (sortPaths paramsNegPass (allFinalPaths offsetSample paramsNegPass [squareCmds]))
  constructor
  · show gcodeHeader paramsNegPass ++ _ ++ _ = _
    rw [hA]
    rfl
  · show gcodeHeader paramsNegPass ++ _ ++ _ ≠ []
    simp [gcodeHeader]

theorem unscale_scalePt (p : Point) : unscale (scalePt p) = p := by
  rcases p with ⟨x, y⟩
  simp [unscale, scalePt, SCALE]

theorem stepCmd_doc (acc : DocPathAcc) (cmd : Cmd) :
    stepCmd ⟨acc.currentPos, acc.currentSubPath.map scalePt,
             acc.subPaths.map (List.map scalePt)⟩ cmd
      = ⟨(docStepCmd acc cmd).currentPos,
         (docStepCmd acc cmd).currentSubPath.map scalePt,
         (docStepCmd acc cmd).subPaths.map (List.map scalePt)⟩ := by
  cases cmd <;>
    simp [stepCmd, docStepCmd, List.map_append, List.length_map,
      apply_ite (List.map (List.map scalePt))]

theorem subPathsOf_eq_map (cmds : List Cmd) :
    subPathsOf cmds = (docSubPathsOf cmds).map (List.map scalePt) := by
  have key : ∀ (cs : List Cmd) (acc : DocPathAcc),
      cs.foldl stepCmd ⟨acc.currentPos, acc.currentSubPath.map scalePt,
          acc.subPaths.map (List.map scalePt)⟩
        = ⟨(cs.foldl docStepCmd acc).currentPos,
           (cs.foldl docStepCmd acc).currentSubPath.map scalePt,
           (cs.foldl docStepCmd acc).subPaths.map (List.map scalePt)⟩ := by
    intro cs
    induction cs with
    | nil => intro acc; rfl
    | cons c cs ih =>
      intro acc
      rw [List.foldl_cons, List.foldl_cons, stepCmd_doc]
      exact ih (docStepCmd acc c)
  unfold subPathsOf docSubPathsOf
  have h0 := key cmds ⟨⟨0, 0⟩, [], []⟩
  simp only [List.map_nil] at h0
  rw [h0]
  simp [List.length_map, List.map_append, apply_ite (List.map (List.map scalePt))]

/-- C6: in on-line cut mode the offset stage is a strict identity transform:
the merged polyline list handed to the emitter is exactly the scaled input
Subpaths, and unscaling it (which is what every emitted coordinate applies)
recovers exactly the document-unit Subpath coordinates — the fixed-point
round-trip ×SCALE, ÷SCALE is lossless. -/
theorem c6_online_identity
    (clipperOffset : List (List SPoint) → ℚ → List (List SPoint))
    (params : GCodeParams) (paths : List (List Cmd))
    (h : params.cutMode = CutMode.onLine) :
    allFinalPaths clipperOffset params paths
        = (paths.flatMap docSubPathsOf).map (List.map scalePt)
    ∧ (allFinalPaths clipperOffset params paths).map (List.map unscale)
        = paths.flatMap docSubPathsOf := by
  have h1 : allFinalPaths clipperOffset params paths
      = (paths.flatMap docSubPathsOf).map (List.map scalePt) := by
    unfold allFinalPaths
    simp only [h, if_pos, subPathsOf_eq_map]
    rw [List.map_flatMap]
  refine ⟨h1, ?_⟩
  rw [h1]
  simp [List.map_map, Function.comp_def, unscale_scalePt]

/-- Witness for C6: the sample square in on-line mode. -/
theorem c6_witness :
    allFinalPaths offsetSample sampleParams [squareCmds]
        = ([squareCmds].flatMap docSubPathsOf).map (List.map scalePt)
    ∧ (allFinalPaths offsetSample sampleParams [squareCmds]).map (List.map unscale)
        = [squareCmds].flatMap docSubPathsOf :=
  c6_online_identity offsetSample sampleParams [squareCmds] rfl

theorem ordInsert_perm {α : Type*} (key : α → ℚ) (a : α) (l : List α) :
    (ordInsert key a l).Perm (a :: l) := by
  induction l with
  | nil => exact List.Perm.refl _
  | cons b l ih =>
    unfold ordInsert
    split
    · exact (ih.cons b).trans (List.Perm.swap a b l)
    · exact List.Perm.refl _

theorem sorted_ordInsert {α : Type*} (key : α → ℚ) (a : α) (l : List α)
    (h : l.Sorted (fun x y => key x ≤ key y)) :
    (ordInsert key a l).Sorted (fun x y => key x ≤ key y) := by
  induction l with
  | nil => simp [ordInsert]
  | cons b l ih =>
    rw [List.sorted_cons] at h
    unfold ordInsert
    split
    · rename_i hlt
      rw [List.sorted_cons]
      refine ⟨?_, ih h.2⟩
      intro c hc
      rcases List.mem_cons.mp ((ordInsert_perm key a l).mem_iff.mp hc) with rfl | hc'
      · exact hlt.le
      · exact h.1 c hc'
    · rename_i hge
      rw [List.sorted_cons]
      refine ⟨?_, List.sorted_cons.mpr h⟩
      intro c hc
      rcases List.mem_cons.mp hc with rfl | hc'
      · exact le_of_not_lt hge
      · exact (le_of_not_lt hge).trans (h.1 c hc')

theorem filter_ordInsert {α : Type*} (key : α → ℚ) (a : α) (l : List α) (c : ℚ) :
    (ordInsert key a l).filter (fun x => decide (key x = c))
      = if key a = c then a :: l.filter (fun x => decide (key x = c))
        else l.filter (fun x => decide (key x = c)) := by
  induction l with
  | nil => by_cases ha : key a = c <;> simp [ordInsert, ha]
  | cons b l ih =>
    unfold ordInsert
    split
    · rename_i hlt
      by_cases hb : key b = c
      · have ha : ¬ key a = c := by
          intro he
          rw [he, ← hb] at hlt
          exact lt_irrefl _ hlt
        simp [List.filter_cons, hb, ha, ih]
      · simp [List.filter_cons, hb, ih]
    · by_cases ha : key a = c <;> simp [List.filter_cons, ha]

theorem perm_stableSortBy {α : Type*} (key : α → ℚ) (l : List α) :
    (stableSortBy key l).Perm l := by
  induction l with
  | nil => exact List.Perm.refl _
  | cons a l ih =>
    rw [stableSortBy, List.foldr_cons]
    exact (ordInsert_perm key a _).trans (ih.cons a)

theorem sorted_stableSortBy {α : Type*} (key : α → ℚ) (l : List α) :
    (stableSortBy key l).Sorted (fun x y => key x ≤ key y) := by
  induction l with
  | nil => simp [stableSortBy]
  | cons a l ih =>
    rw [stableSortBy, List.foldr_cons]
    exact sorted_ordInsert key a _ ih

theorem filter_stableSortBy {α : Type*} (key : α → ℚ) (l : List α) (c : ℚ) :
    (stableSortBy key l).filter (fun x => decide (key x = c))
      = l.filter (fun x => decide (key x = c)) := by
  induction l with
  | nil => rfl
  | cons a l ih =>
    have hfold : List.foldr (ordInsert key) [] l = stableSortBy key l := rfl
    rw [stableSortBy, List.foldr_cons, hfold, filter_ordInsert]
    by_cases ha : key a = c <;> simp [List.filter_cons, ha, ih]

/-- C7: when `pathOrdering = inside-out` the final polyline sequence is a
permutation of the merged post-offset list, sorted ascending by absolute
shoelace area, and stable — for every key value the polylines of that absolute
area appear in exactly their original relative order; `natural` ordering leaves
the sequence unchanged. -/
theorem c7_ordering (params : GCodeParams) (l : List (List SPoint)) :
    (params.pathOrdering = PathOrdering.insideOut →
        (sortPaths params l).Perm l
      ∧ (sortPaths params l).Sorted (fun a b => |area a| ≤ |area b|)
      ∧ ∀ c : ℚ, (sortPaths params l).filter (fun q => decide (|area q| = c))
          = l.filter (fun q => decide (|area q| = c)))
  ∧ (params.pathOrdering = PathOrdering.natural → sortPaths params l = l) := by
  constructor
  · intro h
    rw [sortPaths, if_pos h]
    exact ⟨perm_stableSortBy _ _, sorted_stableSortBy _ _,
      fun c => filter_stableSortBy _ _ c⟩
  · intro h
    rw [sortPaths, if_neg (by rw [h]; exact fun he => PathOrdering.noConfusion he)]

/-- Witness for C7 at a concrete two-element list, in both ordering modes. -/
theorem c7_witness :
    (sortPaths paramsInsideOut [[], [⟨1, 0⟩]]).Perm [[], [⟨1, 0⟩]]
  ∧ sortPaths sampleParams [[], [⟨1, 0⟩]] = [[], [⟨1, 0⟩]] :=
  ⟨((c7_ordering paramsInsideOut [[], [⟨1, 0⟩]]).1 rfl).1,
   (c7_ordering sampleParams [[], [⟨1, 0⟩]]).2 rfl⟩

/-- C3: plunge strategy.  On the first pass in spiral mode, a polyline whose
first edge has length above the near-zero threshold gets the two-segment
plunge: first to the point displaced from the start along the perpendicular of
the first edge — the displacement is orthogonal to the edge and has squared
norm `(0.75 · toolDiameter)²` when the supplied square root is exact — while
descending to half the pass target depth, then back to the start point at the
full target depth.  A polyline with fewer than two points or a near-zero first
edge gets a vertical plunge instead, and every pass after the first plunges
vertically regardless of the configured mode. -/
theorem c3_plunge_strategy (sqrtQ : ℚ → ℚ) (params : GCodeParams)
    (q0 q1 : SPoint) (rest path : List SPoint) (p0 : Point) (d : ℚ)
    (hspiral : params.plungeMode = PlungeMode.spiral) :
    (passPlungeLines sqrtQ params path p0 false d
        = [GInstr.plungeZ (-d) params.plungeRate])
  ∧ (passPlungeLines sqrtQ params [q0] p0 true d
        = [GInstr.plungeZ (-d) params.plungeRate])
  ∧ ((0.001 < sqrtQ (((unscale q1).x - p0.x) * ((unscale q1).x - p0.x)
        + ((unscale q1).y - p0.y) * ((unscale q1).y - p0.y)) →
        passPlungeLines sqrtQ params (q0 :: q1 :: rest) p0 true d
          = [GInstr.spiralPlunge
               ⟨p0.x + -((unscale q1).y - p0.y)
                  / sqrtQ (((unscale q1).x - p0.x) * ((unscale q1).x - p0.x)
                      + ((unscale q1).y - p0.y) * ((unscale q1).y - p0.y))
                  * (params.toolDiameter * 0.75),
                p0.y + ((unscale q1).x - p0.x)
                  / sqrtQ (((unscale q1).x - p0.x) * ((unscale q1).x - p0.x)
                      + ((unscale q1).y - p0.y) * ((unscale q1).y - p0.y))
                  * (params.toolDiameter * 0.75)⟩
               (-d / 2) params.plungeRate,
             GInstr.spiralPlunge p0 (-d) params.plungeRate]
        ∧ (sqrtQ (((unscale q1).x - p0.x) * ((unscale q1).x - p0.x)
              + ((unscale q1).y - p0.y) * ((unscale q1).y - p0.y))
             * sqrtQ (((unscale q1).x - p0.x) * ((unscale q1).x - p0.x)
              + ((unscale q1).y - p0.y) * ((unscale q1).y - p0.y))
             = ((unscale q1).x - p0.x) * ((unscale q1).x - p0.x)
              + ((unscale q1).y - p0.y) * ((unscale q1).y - p0.y) →
           (-((unscale q1).y - p0.y)
              / sqrtQ (((unscale q1).x - p0.x) * ((unscale q1).x - p0.x)
                  + ((unscale q1).y - p0.y) * ((unscale q1).y - p0.y))
              * (params.toolDiameter * 0.75)) * ((unscale q1).x - p0.x)
             + (((unscale q1).x - p0.x)
              / sqrtQ (((unscale q1).x - p0.x) * ((unscale q1).x - p0.x)
                  + ((unscale q1).y - p0.y) * ((unscale q1).y - p0.y))
              * (params.toolDiameter * 0.75)) * ((unscale q1).y - p0.y) = 0
           ∧ (-((unscale q1).y - p0.y)
              / sqrtQ (((unscale q1).x - p0.x) * ((unscale q1).x - p0.x)
                  + ((unscale q1).y - p0.y) * ((unscale q1).y - p0.y))
              * (params.toolDiameter * 0.75)) ^ 2
             + (((unscale q1).x - p0.x)
              / sqrtQ (((unscale q1).x - p0.x) * ((unscale q1).x - p0.x)
                  + ((unscale q1).y - p0.y) * ((unscale q1).y - p0.y))
              * (params.toolDiameter * 0.75)) ^ 2
             = (0.75 * params.toolDiameter) ^ 2))
     ∧ (¬ 0.001 < sqrtQ (((unscale q1).x - p0.x) * ((unscale q1).x - p0.x)
            + ((unscale q1).y - p0.y) * ((unscale q1).y - p0.y)) →
          passPlungeLines sqrtQ params (q0 :: q1 :: rest) p0 true d
            = [GInstr.plungeZ (-d) params.plungeRate])) := by
  have hmode : ¬ (params.plungeMode = PlungeMode.vertical) := by
    rw [hspiral]
    exact fun he => PlungeMode.noConfusion he
  refine ⟨?_, ?_, ?_, ?_⟩
  · simp [passPlungeLines]
  · simp [passPlungeLines, hmode]
  · intro hgt
    constructor
    · unfold passPlungeLines
      rw [if_neg (by simp [hmode])]
      dsimp only
      rw [if_pos hgt]
    · intro hsq
      have hs0 : sqrtQ (((unscale q1).x - p0.x) * ((unscale q1).x - p0.x)
          + ((unscale q1).y - p0.y) * ((unscale q1).y - p0.y)) ≠ 0 := by
        intro he
        rw [he] at hgt
        norm_num at hgt
      constructor
      · ring
      · field_simp
        linear_combination (-(9 / 16 : ℚ)) * params.toolDiameter ^ 2 * hsq
  · intro hle
    unfold passPlungeLines
    rw [if_neg (by simp [hmode])]
    dsimp only
    rw [if_neg hle]

/-- Witness for C3 at the sample square's first edge in spiral mode: later
passes and single-point polylines plunge vertically, and the spiral branch
emits exactly its two instructions. -/
theorem c3_witness :
    passPlungeLines sqrtSample paramsSpiral [⟨0, 0⟩] ⟨0, 0⟩ false 1
        = [GInstr.plungeZ (-1) paramsSpiral.plungeRate]
  ∧ passPlungeLines sqrtSample paramsSpiral [⟨0, 0⟩] ⟨0, 0⟩ true 1
        = [GInstr.plungeZ (-1) paramsSpiral.plungeRate]
  ∧ (passPlungeLines sqrtSample paramsSpiral [⟨0, 0⟩, ⟨10000, 0⟩] ⟨0, 0⟩ true 1).length
        = 2 := by
  have h := c3_plunge_strategy sqrtSample paramsSpiral ⟨0, 0⟩ ⟨10000, 0⟩ [] [⟨0, 0⟩]
    ⟨0, 0⟩ 1 rfl
  refine ⟨h.1, h.2.1, ?_⟩
  have hgt : (0.001 : ℚ) < sqrtSample
      (((unscale ⟨10000, 0⟩).x - (Point.mk 0 0).x) * ((unscale ⟨10000, 0⟩).x - (Point.mk 0 0).x)
        + ((unscale ⟨10000, 0⟩).y - (Point.mk 0 0).y)
          * ((unscale ⟨10000, 0⟩).y - (Point.mk 0 0).y)) := by
    norm_num [sqrtSample, unscale, SCALE]
  rw [(h.2.2.1 hgt).1]
  rfl

theorem passPlungeLines_filter_isRapid (sqrtQ : ℚ → ℚ) (params : GCodeParams)
    (path : List SPoint) (p0 : Point) (fst : Bool) (d : ℚ) :
    (passPlungeLines sqrtQ params path p0 fst d).filter isRapid = [] := by
  unfold passPlungeLines
  split
  · rfl
  · rcases path with _ | ⟨q0, _ | ⟨q1, rest⟩⟩
    · rfl
    · rfl
    · dsimp only
      split <;> rfl

theorem cutLines_filter_isRapid (path : List SPoint) :
    (cutLines path).filter isRapid = [] := by
  unfold cutLines
  generalize path.drop 1 = ts
  induction ts with
  | nil => rfl
  | cons q ts ih => simp [isRapid, ih]

theorem passLines_filter_isRapid (sqrtQ : ℚ → ℚ) (params : GCodeParams)
    (path : List SPoint) (p0 : Point) (k n : ℕ) :
    (passLines sqrtQ params path p0 k n).filter isRapid
      = (if k == 0 then [GInstr.rapidXY p0, GInstr.rapidZ params.safeZ] else [])
        ++ (if k == n - 1 then [GInstr.rapidZ params.safeZ] else []) := by
  unfold passLines
  dsimp only
  simp only [List.filter_append, passPlungeLines_filter_isRapid, cutLines_filter_isRapid]
  split_ifs <;> simp [isRapid]

theorem getLast_cons_append_singleton {β : Type*} (a v : β) (l : List β) :
    (a :: (l ++ [v])).getLast? = some v := by
  rw [List.getLast?_cons, List.getLast?_concat]
  rfl

theorem passLines_getLast (sqrtQ : ℚ → ℚ) (params : GCodeParams)
    (path : List SPoint) (p0 : Point) (k n : ℕ) (h : k = n - 1) :
    (passLines sqrtQ params path p0 k n).getLast? = some (GInstr.rapidZ params.safeZ) := by
  unfold passLines
  dsimp only
  have hl : (k == n - 1) = true := by simp [h]
  rw [hl, if_pos rfl]
  simp [List.getLast?_append, List.getLast?_cons]

theorem filter_flatMap_range {β : Type*} (p : β → Bool) (f : ℕ → List β) (l : List ℕ) :
    (l.flatMap f).filter p = l.flatMap (fun k => (f k).filter p) := by
  induction l with
  | nil => rfl
  | cons k l ih => simp [List.filter_append, ih]

theorem flatMap_range_first {β : Type*} (c1 c2 : List β) :
    ∀ (m bound : ℕ), m ≤ bound →
      (List.range m).flatMap
          (fun k => (if k == 0 then c1 else []) ++ (if k == bound then c2 else []))
        = if m = 0 then [] else c1 := by
  intro m
  induction m with
  | zero => intro bound _; rfl
  | succ m ih =>
    intro bound hb
    rw [List.range_succ, List.flatMap_append]
    rw [ih bound (Nat.le_of_succ_le hb)]
    have hmb : (m == bound) = false := by
      simp only [beq_eq_false_iff_ne]
      omega
    simp only [List.flatMap_cons, List.flatMap_nil, List.append_nil]
    rw [hmb]
    rcases Nat.eq_zero_or_pos m with rfl | hm
    · simp
    · have hm0 : (m == 0) = false := by
        simp only [beq_eq_false_iff_ne]
        omega
      rw [hm0]
      simp [Nat.pos_iff_ne_zero.mp hm]

/-- C8: for a nonempty polyline cut in `numPasses ≥ 1` passes, the rapid
instructions of the polyline's whole program are exactly the first pass's rapid
travel to the start and rapid move to safe height, plus one retract to safe
height which is the final instruction; no rapid occurs in any intermediate
pass, and every pass after the first begins with the Z-only vertical plunge
directly after its comment line, so no X/Y repositioning happens between
consecutive passes. -/
theorem c8_pass_structure (sqrtQ : ℚ → ℚ) (params : GCodeParams) (q0 : SPoint)
    (rest : List SPoint) (hn : 1 ≤ passCountOf params) :
    (emitPathLines sqrtQ params (q0 :: rest)).filter isRapid
        = [GInstr.rapidXY (unscale q0), GInstr.rapidZ params.safeZ,
           GInstr.rapidZ params.safeZ]
  ∧ (emitPathLines sqrtQ params (q0 :: rest)).getLast?
        = some (GInstr.rapidZ params.safeZ)
  ∧ (∀ k, 1 ≤ k → k < passCountOf params →
      (passLines sqrtQ params (q0 :: rest) (unscale q0) k (passCountOf params)).take 2
        = [GInstr.passComment (k + 1) (passCountOf params) (passTargetDepth params k),
           GInstr.plungeZ (-(passTargetDepth params k)) params.plungeRate]
      ∧ (k < passCountOf params - 1 →
          (passLines sqrtQ params (q0 :: rest) (unscale q0) k
              (passCountOf params)).filter isRapid = [])) := by
  obtain ⟨m, hm⟩ : ∃ m, passCountOf params = m + 1 :=
    ⟨passCountOf params - 1, by omega⟩
  refine ⟨?_, ?_, ?_⟩
  · rw [emitPathLines]
    rw [filter_flatMap_range]
    simp only [passLines_filter_isRapid]
    rw [hm]
    simp only [Nat.add_sub_cancel]
    rw [List.range_succ, List.flatMap_append]
    rw [flatMap_range_first _ _ m m (le_refl m)]
    simp only [List.flatMap_cons, List.flatMap_nil, List.append_nil]
    rw [beq_self_eq_true m, if_pos rfl]
    rcases Nat.eq_zero_or_pos m with rfl | hmpos
    · simp
    · have hm0 : (m == 0) = false := by
        simp only [beq_eq_false_iff_ne]
        omega
      rw [hm0]
      simp [Nat.pos_iff_ne_zero.mp hmpos]
  · rw [emitPathLines]
    rw [hm, List.range_succ, List.flatMap_append]
    rw [List.getLast?_append]
    simp only [List.flatMap_cons, List.flatMap_nil, List.append_nil]
    rw [passLines_getLast sqrtQ params _ _ m (m + 1) (by omega)]
    rfl
  · intro k hk1 hkn
    have hk0 : (k == 0) = false := by
      simp only [beq_eq_false_iff_ne]
      omega
    constructor
    · unfold passLines
      dsimp only
      rw [hk0]
      rw [if_neg (by simp)]
      have hplunge : passPlungeLines sqrtQ params (q0 :: rest) (unscale q0) false
          (passTargetDepth params k)
            = [GInstr.plungeZ (-(passTargetDepth params k)) params.plungeRate] := by
        unfold passPlungeLines
        rw [if_pos (Or.inr rfl)]
      rw [hplunge]
      rfl
    · intro hklast
      rw [passLines_filter_isRapid]
      have hkl : (k == passCountOf params - 1) = false := by
        simp only [beq_eq_false_iff_ne]
        omega
      simp [hk0, hkl]

/-- Witness for C8: the two-point edge cut in the two passes of depthOfCut 3/2
at passDepth 1 — three rapids in total, retract last, second pass opening with
the Z-only plunge. -/
theorem c8_witness :
    (emitPathLines sqrtSample paramsHalfPass (⟨0, 0⟩ :: [⟨10000, 0⟩])).filter isRapid
        = [GInstr.rapidXY (unscale ⟨0, 0⟩), GInstr.rapidZ paramsHalfPass.safeZ,
           GInstr.rapidZ paramsHalfPass.safeZ]
  ∧ (emitPathLines sqrtSample paramsHalfPass (⟨0, 0⟩ :: [⟨10000, 0⟩])).getLast?
        = some (GInstr.rapidZ paramsHalfPass.safeZ)
  ∧ (passLines sqrtSample paramsHalfPass (⟨0, 0⟩ :: [⟨10000, 0⟩]) (unscale ⟨0, 0⟩) 1
        (passCountOf paramsHalfPass)).take 2
      = [GInstr.passComment 2 (passCountOf paramsHalfPass) (passTargetDepth paramsHalfPass 1),
         GInstr.plungeZ (-(passTargetDepth paramsHalfPass 1)) paramsHalfPass.plungeRate] := by
  have hpc : passCountOf paramsHalfPass = 2 := by
    simp only [passCountOf, paramsHalfPass, sampleParams]
    norm_num
    have h32 : ⌈(3 : ℚ) / 2⌉ = 2 := by
      rw [Int.ceil_eq_iff] <;> norm_num
    rw [h32]
    rfl
  have h := c8_pass_structure sqrtSample paramsHalfPass ⟨0, 0⟩ [⟨10000, 0⟩] (by omega)
  exact ⟨h.1, h.2.1, (h.2.2 1 (le_refl 1) (by omega)).1⟩

theorem chainFrom_append (h : Point) (l1 l2 : List Segment) :
    ChainFrom h (l1 ++ l2) ↔ ChainFrom h l1 ∧ ChainFrom (chainEnd h l1) l2 := by
  induction l1 generalizing h with
  | nil => simp [ChainFrom, chainEnd]
  | cons s l ih => simp [ChainFrom, chainEnd, ih, and_assoc]

theorem chainEnd_append (h : Point) (l1 l2 : List Segment) :
    chainEnd h (l1 ++ l2) = chainEnd (chainEnd h l1) l2 := by
  induction l1 generalizing h with
  | nil => simp [chainEnd]
  | cons s l ih => simp [chainEnd, ih]

theorem chain_comp (h e1 e2 : Point) (s1 s2 : List Segment)
    (h1 : ChainFrom h s1 ∧ e1 = chainEnd h s1)
    (h2 : ChainFrom e1 s2 ∧ e2 = chainEnd e1 s2) :
    ChainFrom h (s1 ++ s2) ∧ e2 = chainEnd h (s1 ++ s2) := by
  rcases h1 with ⟨hc1, he1⟩
  rcases h2 with ⟨hc2, he2⟩
  rw [chainFrom_append, chainEnd_append]
  subst he1
  exact ⟨⟨hc1, hc2⟩, he2⟩

theorem chainCutSegs_chain (ts : List Point) :
    ∀ h : Point, ChainFrom h (chainCutSegs h ts).1
      ∧ (chainCutSegs h ts).2 = chainEnd h (chainCutSegs h ts).1 := by
  induction ts with
  | nil => intro h; exact ⟨trivial, rfl⟩
  | cons t ts ih =>
    intro h
    have := ih t
    exact ⟨⟨rfl, this.1⟩, this.2⟩

theorem passPlungeSegs_chain (sqrtQ : ℚ → ℚ) (params : GCodeParams)
    (path : List SPoint) (p0 : Point) (fst : Bool) (h : Point) :
    ChainFrom h (passPlungeSegs sqrtQ params path p0 fst h).1
      ∧ (passPlungeSegs sqrtQ params path p0 fst h).2
          = chainEnd h (passPlungeSegs sqrtQ params path p0 fst h).1 := by
  unfold passPlungeSegs
  split
  · exact ⟨trivial, rfl⟩
  · rcases path with _ | ⟨q0, _ | ⟨q1, rest⟩⟩
    · exact ⟨trivial, rfl⟩
    · exact ⟨trivial, rfl⟩
    · dsimp only
      split
      · exact ⟨⟨rfl, rfl, trivial⟩, rfl⟩
      · exact ⟨trivial, rfl⟩

theorem passStartSegs_chain (p0 : Point) (fst : Bool) (h : Point) :
    ChainFrom h (passStartSegs p0 fst h).1
      ∧ (passStartSegs p0 fst h).2 = chainEnd h (passStartSegs p0 fst h).1 := by
  unfold passStartSegs
  split
  · exact ⟨⟨rfl, trivial⟩, rfl⟩
  · exact ⟨trivial, rfl⟩

theorem passClosingSegs_chain (path : List SPoint) (p0 : Point) (h : Point) :
    ChainFrom h (passClosingSegs path p0 h).1
      ∧ (passClosingSegs path p0 h).2 = chainEnd h (passClosingSegs path p0 h).1 := by
  unfold passClosingSegs
  split
  · exact ⟨⟨rfl, trivial⟩, rfl⟩
  · exact ⟨trivial, rfl⟩

theorem passSegs_chain (sqrtQ : ℚ → ℚ) (params : GCodeParams) (path : List SPoint)
    (p0 : Point) (k : ℕ) (h : Point) :
    ChainFrom h (passSegs sqrtQ params path p0 k h).1
      ∧ (passSegs sqrtQ params path p0 k h).2
          = chainEnd h (passSegs sqrtQ params path p0 k h).1 := by
  unfold passSegs
  dsimp only
  have h1 := passStartSegs_chain p0 (k == 0) h
  have h2 := passPlungeSegs_chain sqrtQ params path p0 (k == 0)
    (passStartSegs p0 (k == 0) h).2
  have h3 := chainCutSegs_chain ((path.drop 1).map unscale)
    (passPlungeSegs sqrtQ params path p0 (k == 0) (passStartSegs p0 (k == 0) h).2).2
  have h4 := passClosingSegs_chain path p0
    (chainCutSegs (passPlungeSegs sqrtQ params path p0 (k == 0)
      (passStartSegs p0 (k == 0) h).2).2 ((path.drop 1).map unscale)).2
  have h12 := chain_comp h _ _ _ _ h1 h2
  have h123 := chain_comp h _ _ _ _ h12 h3
  have hfinal := chain_comp h _ _ _ _ h123 h4
  simpa [List.append_assoc] using hfinal

theorem emitPathSegs_chain (sqrtQ : ℚ → ℚ) (params : GCodeParams)
    (path : List SPoint) (h : Point) :
    ChainFrom h (emitPathSegs sqrtQ params path h).1
      ∧ (emitPathSegs sqrtQ params path h).2
          = chainEnd h (emitPathSegs sqrtQ params path h).1 := by
  have key : ∀ (p0 : Point) (ks : List ℕ) (acc : List Segment × Point),
      (ChainFrom h acc.1 ∧ acc.2 = chainEnd h acc.1) →
      ChainFrom h (ks.foldl (fun acc k =>
          let r := passSegs sqrtQ params path p0 k acc.2
          (acc.1 ++ r.1, r.2)) acc).1
      ∧ (ks.foldl (fun acc k =>
          let r := passSegs sqrtQ params path p0 k acc.2
          (acc.1 ++ r.1, r.2)) acc).2
        = chainEnd h (ks.foldl (fun acc k =>
          let r := passSegs sqrtQ params path p0 k acc.2
          (acc.1 ++ r.1, r.2)) acc).1 := by
    intro p0 ks
    induction ks with
    | nil => intro acc hacc; exact hacc
    | cons k ks ih =>
      intro acc hacc
      rw [List.foldl_cons]
      dsimp only
      refine ih _ ?_
      have hp := passSegs_chain sqrtQ params path p0 k acc.2
      have hcomp := chain_comp h _ _ _ _ ⟨hacc.1, hacc.2⟩ ⟨hp.1, hp.2⟩
      exact hcomp
  rcases path with _ | ⟨q0, rest⟩
  · exact ⟨trivial, rfl⟩
  · exact key (unscale q0) (List.range (passCountOf params)) ([], h) ⟨trivial, rfl⟩

theorem emitAll_chain (sqrtQ : ℚ → ℚ) (params : GCodeParams)
    (l : List (List SPoint)) :
    ChainFrom ⟨0, 0⟩ (emitAll sqrtQ params l).2.1
      ∧ (emitAll sqrtQ params l).2.2
          = chainEnd ⟨0, 0⟩ (emitAll sqrtQ params l).2.1 := by
  have key : ∀ (ls : List (List SPoint)) (acc : List GInstr × List Segment × Point),
      (ChainFrom ⟨0, 0⟩ acc.2.1 ∧ acc.2.2 = chainEnd ⟨0, 0⟩ acc.2.1) →
      ChainFrom ⟨0, 0⟩ (ls.foldl (fun (acc : List GInstr × List Segment × Point) path =>
          let lsg := emitPathLines sqrtQ params path
          let sg := emitPathSegs sqrtQ params path acc.2.2
          (acc.1 ++ lsg, acc.2.1 ++ sg.1, sg.2)) acc).2.1
      ∧ (ls.foldl (fun (acc : List GInstr × List Segment × Point) path =>
          let lsg := emitPathLines sqrtQ params path
          let sg := emitPathSegs sqrtQ params path acc.2.2
          (acc.1 ++ lsg, acc.2.1 ++ sg.1, sg.2)) acc).2.2
        = chainEnd ⟨0, 0⟩ (ls.foldl (fun (acc : List GInstr × List Segment × Point) path =>
          let lsg := emitPathLines sqrtQ params path
          let sg := emitPathSegs sqrtQ params path acc.2.2
          (acc.1 ++ lsg, acc.2.1 ++ sg.1, sg.2)) acc).2.1 := by
    intro ls
    induction ls with
    | nil => intro acc hacc; exact hacc
    | cons p ls ih =>
      intro acc hacc
      rw [List.foldl_cons]
      dsimp only
      refine ih _ ?_
      have hp := emitPathSegs_chain sqrtQ params p acc.2.2
      exact chain_comp ⟨0, 0⟩ _ _ _ _ ⟨hacc.1, hacc.2⟩ ⟨hp.1, hp.2⟩
  unfold emitAll
  exact key l ([], [], ⟨0, 0⟩) ⟨trivial, rfl⟩

/-- C10: the visualization segment list is one connected chain: it is nonempty,
its first segment starts at the origin, each segment starts where the previous
one ended, and the final segment (the return home) ends at the origin. -/
theorem c10_segments_chain (sqrtQ : ℚ → ℚ)
    (clipperOffset : List (List SPoint) → ℚ → List (List SPoint))
    (paths : List (List Cmd)) (params : GCodeParams) :
    (generateGCode sqrtQ clipperOffset paths params).segments ≠ []
  ∧ ((generateGCode sqrtQ clipperOffset paths params).segments.head?).map Segment.p1
      = some ⟨0, 0⟩
  ∧ ChainFrom ⟨0, 0⟩ (generateGCode sqrtQ clipperOffset paths params).segments
  ∧ ((generateGCode sqrtQ clipperOffset paths params).segments.getLast?).map Segment.p2
      = some ⟨0, 0⟩ := by
  have hE := emitAll_chain sqrtQ params
    (sortPaths params (allFinalPaths clipperOffset params paths))
  have hseg : (generateGCode sqrtQ clipperOffset paths params).segments
      = (emitAll sqrtQ params (sortPaths params (allFinalPaths clipperOffset params paths))).2.1
        ++ [⟨(emitAll sqrtQ params
              (sortPaths params (allFinalPaths clipperOffset params paths))).2.2,
            ⟨0, 0⟩, SegType.G0⟩] := rfl
  rw [hseg]
  refine ⟨by simp, ?_, ?_, ?_⟩
  · rcases hEmitNil : (emitAll sqrtQ params
        (sortPaths params (allFinalPaths clipperOffset params paths))).2.1 with _ | ⟨s, ss⟩
    · simp only [hEmitNil, List.nil_append, List.head?_cons, Option.map_some]
      have := hE.2
      rw [hEmitNil] at this
      simp [chainEnd] at this
      simp [this]
    · have hc := hE.1
      rw [hEmitNil] at hc
      have hp1 : s.p1 = ⟨0, 0⟩ := hc.1
      simp [hEmitNil, hp1]
  · rw [chainFrom_append]
    refine ⟨hE.1, ?_⟩
    exact ⟨hE.2, trivial⟩
  · simp

end Gcode
